/-
Verification of the perspective-corrected card detection pipeline
(`ImprovedCardDetector` in improved_card_detection.py).

The embedding models grayscale images as total pixel functions with explicit
dimensions.  OpenCV / numpy primitives that the repository calls but does not
implement (contour extraction, perspective warping, Gaussian blur, resizing)
are modelled as executable Lean functions; each such model carries a doc
comment explaining the modelling choice.  All repository logic (filtering,
point ordering, corner slicing, template matching, confidence computation,
per-candidate error isolation) is translated statement-for-statement from the
Python source.
-/
import Mathlib

set_option maxHeartbeats 1000000
set_option maxRecDepth 1000000

/-- A grayscale image: height, width, and a total pixel function
(row, column ↦ intensity).  Pixels outside the nominal bounds are given by the
same function; all images built in this development are total in that sense. -/
structure Img where
  h : ℕ
  w : ℕ
  px : ℕ → ℕ → ℕ

theorem Img.ext_pix {a b : Img} (hh : a.h = b.h) (hw : a.w = b.w)
    (hpx : ∀ i j, a.px i j = b.px i j) : a = b := by
  cases a with
  | mk ah aw apx =>
    cases b with
    | mk bh bw bpx =>
      simp only at hh hw
      subst hh; subst hw
      have : apx = bpx := by
        funext i j
        exact hpx i j
      rw [this]

/-- An image with a constant intensity everywhere (used for tests/witnesses). -/
def constImg (h w a : ℕ) : Img := ⟨h, w, fun _ _ => a⟩

/-- `np.zeros((h, w), dtype=np.uint8)`. -/
def zerosImg (h w : ℕ) : Img := ⟨h, w, fun _ _ => 0⟩

/-- Numpy-style slice `img[y0:y1, x0:x1]`: dimensions are clamped the way a
numpy slice clamps an out-of-range stop index. -/
def cropImg (img : Img) (y0 y1 x0 x1 : ℕ) : Img :=
  ⟨min y1 img.h - y0, min x1 img.w - x0, fun i j => img.px (y0 + i) (x0 + j)⟩

/-- Modelled external routine: `cv2.resize(src, (W, H))`.  The output always
has the requested dimensions; pixels are taken by nearest-neighbour sampling
(the repository never relies on the interpolation kernel, only on the output
size and on constant images staying constant). -/
def resizeTo (img : Img) (W H : ℕ) : Img :=
  ⟨H, W, fun i j => img.px (i * img.h / H) (j * img.w / W)⟩

/-- `cv2.threshold(src, t, 255, cv2.THRESH_BINARY_INV)`: pixels strictly above
the threshold become 0, all others 255. -/
def threshBinInv (img : Img) (t : ℤ) : Img :=
  ⟨img.h, img.w, fun i j => if (img.px i j : ℤ) > t then 0 else 255⟩

/-- Binomial weights standing in for the 5-tap Gaussian kernel row. -/
def gw5 : Fin 5 → ℕ := ![1, 4, 6, 4, 1]

/-- Modelled external routine: `cv2.GaussianBlur(src, (5,5), 0)` with a
binomial 5×5 kernel (total weight 256) and clamped borders.  The repository
only relies on blurring being a local weighted average that keeps constant
images constant. -/
def blur5 (img : Img) : Img :=
  ⟨img.h, img.w, fun i j =>
    (∑ a : Fin 5, ∑ b : Fin 5,
      gw5 a * gw5 b *
        img.px (min (img.h - 1) (i + a.val - 2)) (min (img.w - 1) (j + b.val - 2))) / 256⟩

/-- Cells (row, col) holding a nonzero pixel, within the nominal bounds. -/
def nonzeroCells (img : Img) : Finset (ℕ × ℕ) :=
  (Finset.range img.h ×ˢ Finset.range img.w).filter fun p => img.px p.1 p.2 ≠ 0

/-- Modelled external routine: `cv2.boundingRect` of the nonzero region,
returned as (x, y, w, h) exactly like OpenCV. -/
def bboxOfNonzero (img : Img) : ℕ × ℕ × ℕ × ℕ :=
  if hne : (nonzeroCells img).Nonempty then
    let xs := (nonzeroCells img).image Prod.snd
    let ys := (nonzeroCells img).image Prod.fst
    (xs.min' (hne.image _), ys.min' (hne.image _),
     xs.max' (hne.image _) - xs.min' (hne.image _) + 1,
     ys.max' (hne.image _) - ys.min' (hne.image _) + 1)
  else (0, 0, 0, 0)

/-- Modelled from the spec: `cv2.findContours` + `cv2.contourArea` +
`cv2.boundingRect` on a binary sub-region, all external to the repository.
Per the spec's corner-isolation section, no contour is found exactly when the
sub-region is blank; otherwise the largest contour's bounding rectangle is the
bounding rectangle of the nonzero pixels.  Only the bounding rectangle of the
largest contour is consumed by the repository code. -/
def findContoursBBox (img : Img) : List (ℕ × ℕ × ℕ × ℕ) :=
  if (nonzeroCells img).Nonempty then [bboxOfNonzero img] else []

/- ### Detection constants (class attributes of ImprovedCardDetector) -/

def ImprovedCardDetector.BKG_THRESH : ℕ := 60
def ImprovedCardDetector.CARD_THRESH : ℕ := 30
def ImprovedCardDetector.CARD_WIDTH : ℕ := 200
def ImprovedCardDetector.CARD_HEIGHT : ℕ := 300
def ImprovedCardDetector.CORNER_WIDTH : ℕ := 32
def ImprovedCardDetector.CORNER_HEIGHT : ℕ := 84
def ImprovedCardDetector.RANK_WIDTH : ℕ := 70
def ImprovedCardDetector.RANK_HEIGHT : ℕ := 125
def ImprovedCardDetector.SUIT_WIDTH : ℕ := 70
def ImprovedCardDetector.SUIT_HEIGHT : ℕ := 100
def ImprovedCardDetector.CARD_MAX_AREA : ℚ := 120000
def ImprovedCardDetector.CARD_MIN_AREA : ℚ := 25000
def ImprovedCardDetector.RANK_DIFF_MAX : ℕ := 2000
def ImprovedCardDetector.SUIT_DIFF_MAX : ℕ := 700

/-- The detector's template stores (`self.rank_templates` /
`self.suit_templates`), as association lists in insertion order — Python dicts
iterate in insertion order.  Template loading itself is filesystem I/O and is
outside the embedding; a missing directory yields the empty store. -/
structure ImprovedCardDetector where
  rank_templates : List (String × Img)
  suit_templates : List (String × Img)

/- ### find_cards -/

/-- A contour as handed to `find_cards` by `cv2.findContours` together with
the values the external OpenCV routines (`contourArea`, `approxPolyDP`,
`boundingRect`) report for it; those routines are external to the repository,
so their outputs are carried as data. -/
structure Contour where
  area : ℚ
  approx : List (ℤ × ℤ)
  bbox : ℕ × ℕ × ℕ × ℕ
deriving DecidableEq

/-- Aspect ratio of a bounding box: `float(w) / h`. -/
def bboxAspect (b : ℕ × ℕ × ℕ × ℕ) : ℚ := (b.2.2.1 : ℚ) / (b.2.2.2 : ℚ)

/-- The per-card dictionary appended by `find_cards`. -/
structure CardInfo where
  contour : Contour
  approx : List (ℤ × ℤ)
  area : ℚ
  bbox : ℕ × ℕ × ℕ × ℕ
  aspectRatio : ℚ
deriving DecidableEq

def mkCardInfo (c : Contour) : CardInfo :=
  { contour := c
    approx := c.approx
    area := c.area
    bbox := c.bbox
    aspectRatio := bboxAspect c.bbox }

/-- The admission test of `find_cards`: area strictly inside
(CARD_MIN_AREA, CARD_MAX_AREA), polygon approximation with exactly 4 vertices,
and aspect ratio strictly inside (0.4, 1.0). -/
def cardPass (c : Contour) : Bool :=
  decide (ImprovedCardDetector.CARD_MIN_AREA < c.area) &&
  decide (c.area < ImprovedCardDetector.CARD_MAX_AREA) &&
  (c.approx.length == 4) &&
  decide ((0.4 : ℚ) < bboxAspect c.bbox) &&
  decide (bboxAspect c.bbox < (1.0 : ℚ))

/-- Ordering used by `sorted(contours, key=cv2.contourArea, reverse=True)`:
largest area first. -/
def areaGE (a b : Contour) : Prop := b.area ≤ a.area

instance : DecidableRel areaGE := fun a b => inferInstanceAs (Decidable (b.area ≤ a.area))

/-- `ImprovedCardDetector.find_cards`: sort contours by area, largest first
(Python's `sorted` is a stable sort, modelled by the stable insertion sort),
then keep those passing the area / vertex-count / aspect-ratio admission
tests, building the card-info dictionary for each. -/
def ImprovedCardDetector.find_cards (contours : List Contour) : List CardInfo :=
  ((contours.insertionSort areaGE).filter cardPass).map mkCardInfo

/- ### order_points -/

/-- `np.argmin` over four values: index of the first minimum. -/
def argmin4 (f : Fin 4 → ℤ) : Fin 4 :=
  let b1 : Fin 4 := if f 1 < f 0 then 1 else 0
  let b2 : Fin 4 := if f 2 < f b1 then 2 else b1
  if f 3 < f b2 then 3 else b2

/-- `np.argmax` over four values: index of the first maximum. -/
def argmax4 (f : Fin 4 → ℤ) : Fin 4 :=
  let b1 : Fin 4 := if f 0 < f 1 then 1 else 0
  let b2 : Fin 4 := if f b1 < f 2 then 2 else b1
  if f b2 < f 3 then 3 else b2

/-- `ImprovedCardDetector.order_points`: rect[0] (top-left) is the point with
the smallest coordinate sum, rect[2] (bottom-right) the largest sum; rect[1]
(top-right) has the smallest `np.diff` value (y − x), rect[3] (bottom-left)
the largest. -/
def order_points (pts : Fin 4 → ℤ × ℤ) : Fin 4 → ℤ × ℤ :=
  let s : Fin 4 → ℤ := fun i => (pts i).1 + (pts i).2
  let d : Fin 4 → ℤ := fun i => (pts i).2 - (pts i).1
  ![pts (argmin4 s), pts (argmin4 d), pts (argmax4 s), pts (argmax4 d)]

/- ### flatten_card (perspective flattening) -/

/-- `corners.reshape(4, 2)`: succeeds exactly on four points (numpy raises on
any other size, which the per-candidate try/except of the detection loop
catches). -/
def reshape4 (l : List (ℤ × ℤ)) : Option (Fin 4 → ℤ × ℤ) :=
  match l with
  | [a, b, c, d] => some ![a, b, c, d]
  | _ => none

/-- Cross product test: the three points are collinear (or coincide). -/
def collinear3 (a b c : ℤ × ℤ) : Bool :=
  (b.1 - a.1) * (c.2 - a.2) - (b.2 - a.2) * (c.1 - a.1) == 0

/-- The ordered quadrilateral is degenerate: some three of its corners are
collinear (this includes duplicated corners), which makes the source-to-
destination homography singular. -/
def isDegenQuad (q : Fin 4 → ℤ × ℤ) : Bool :=
  collinear3 (q 0) (q 1) (q 2) || collinear3 (q 0) (q 1) (q 3) ||
  collinear3 (q 0) (q 2) (q 3) || collinear3 (q 1) (q 2) (q 3)

/-- Rounds a rational coordinate to a pixel index. -/
def ratToIdx (q : ℚ) : ℕ := q.floor.toNat

/-- Modelled external routine: `cv2.warpPerspective` to a
CARD_WIDTH × CARD_HEIGHT canvas.  The sampling map is the bilinear patch
spanned by the ordered corners (TL, TR, BR, BL) — an executable stand-in for
the exact homography, which is computed inside OpenCV.  No claim depends on
the sampled positions, only on the output dimensions and on sampling from a
constant image yielding that constant. -/
def warpQuad (img : Img) (rect : Fin 4 → ℤ × ℤ) : Img :=
  ⟨ImprovedCardDetector.CARD_HEIGHT, ImprovedCardDetector.CARD_WIDTH, fun i j =>
    let u : ℚ := (j : ℚ) / (ImprovedCardDetector.CARD_WIDTH - 1)
    let v : ℚ := (i : ℚ) / (ImprovedCardDetector.CARD_HEIGHT - 1)
    let tl := rect 0; let tr := rect 1; let br := rect 2; let bl := rect 3
    let x : ℚ := (1 - u) * (1 - v) * tl.1 + u * (1 - v) * tr.1 +
                 u * v * br.1 + (1 - u) * v * bl.1
    let y : ℚ := (1 - u) * (1 - v) * tl.2 + u * (1 - v) * tr.2 +
                 u * v * br.2 + (1 - u) * v * bl.2
    img.px (ratToIdx y) (ratToIdx x)⟩

/-- `ImprovedCardDetector.flatten_card`: order the four corners, build the
perspective transform to the standard card rectangle and warp.  Modelled from
the spec: `cv2.getPerspectiveTransform` (external) has a singular system
exactly when the ordered quadrilateral is degenerate; per the spec this
failure is raised and caught by the per-candidate handler, so it is modelled
as `Except.error`. -/
def ImprovedCardDetector.flatten_card (image : Img) (corners : List (ℤ × ℤ)) :
    Except String Img :=
  match reshape4 corners with
  | none => .error "reshape"
  | some pts =>
    let rect := order_points pts
    if isDegenQuad rect then .error "singular transform"
    else .ok (warpQuad image rect)

/- ### extract_and_process_corner -/

/-- `ImprovedCardDetector.extract_and_process_corner`: slice the top-left
corner, zoom 4×, blur, threshold adaptively against the white level sampled
at (15, CORNER_WIDTH·4/2) of the zoomed corner, and split into the rank
(rows 20:185) and suit (rows 186:336) sub-regions. -/
def ImprovedCardDetector.extract_and_process_corner (card_image : Img) : Img × Img :=
  let corner := cropImg card_image 0 ImprovedCardDetector.CORNER_HEIGHT 0
    ImprovedCardDetector.CORNER_WIDTH
  let corner_zoom := resizeTo corner (4 * corner.w) (4 * corner.h)
  let corner_blur := blur5 corner_zoom
  let white_level : ℕ := corner_zoom.px 15 (ImprovedCardDetector.CORNER_WIDTH * 4 / 2)
  let thresh_level : ℤ := (white_level : ℤ) - ImprovedCardDetector.CARD_THRESH
  let thresh_level : ℤ := if thresh_level ≤ 0 then 1 else thresh_level
  let corner_thresh := threshBinInv corner_blur thresh_level
  let rank_img := cropImg corner_thresh 20 185 0 128
  let suit_img := cropImg corner_thresh 186 336 0 128
  (rank_img, suit_img)

/- ### isolate_rank_and_suit -/

/-- `ImprovedCardDetector.isolate_rank_and_suit`: in each sub-region take the
largest contour's bounding rectangle, crop to it and resize to the standard
template size; with no contour, substitute a zero image of exactly that
standard size. -/
def ImprovedCardDetector.isolate_rank_and_suit (rank_img suit_img : Img) : Img × Img :=
  let rank_sized :=
    match findContoursBBox rank_img with
    | [] => zerosImg ImprovedCardDetector.RANK_HEIGHT ImprovedCardDetector.RANK_WIDTH
    | bb :: _ =>
      resizeTo (cropImg rank_img bb.2.1 (bb.2.1 + bb.2.2.2) bb.1 (bb.1 + bb.2.2.1))
        ImprovedCardDetector.RANK_WIDTH ImprovedCardDetector.RANK_HEIGHT
  let suit_sized :=
    match findContoursBBox suit_img with
    | [] => zerosImg ImprovedCardDetector.SUIT_HEIGHT ImprovedCardDetector.SUIT_WIDTH
    | bb :: _ =>
      resizeTo (cropImg suit_img bb.2.1 (bb.2.1 + bb.2.2.2) bb.1 (bb.1 + bb.2.2.1))
        ImprovedCardDetector.SUIT_WIDTH ImprovedCardDetector.SUIT_HEIGHT
  (rank_sized, suit_sized)

/- ### template matching -/

/-- `int(np.sum(cv2.absdiff(img, template)) / 255)`: the sum of absolute
pixel differences over the glyph's extent, divided by 255 (floor — `int()`
truncation of a nonnegative value). -/
def diffScore (img template : Img) : ℕ :=
  (∑ i ∈ Finset.range img.h, ∑ j ∈ Finset.range img.w,
    (max (img.px i j) (template.px i j) - min (img.px i j) (template.px i j))) / 255

/-- `d < best` where `best` may be the initial `float('inf')` (`none`). -/
def ltInf (d : ℕ) (best : Option ℕ) : Bool :=
  match best with
  | none => true
  | some b => decide (d < b)

/-- `best < threshold` where `best` may be `float('inf')` (`none`), which
compares as not-less-than any finite threshold. -/
def ltFin (best : Option ℕ) (t : ℕ) : Bool :=
  match best with
  | none => false
  | some b => decide (b < t)

/-- One iteration of the matching loop: replace the running best when the
current template's difference is strictly smaller. -/
def matchStep (img : Img) (acc : String × Option ℕ) (p : String × Img) :
    String × Option ℕ :=
  let diff := diffScore img p.2
  if ltInf diff acc.2 then (p.1, some diff) else acc

/-- The matching loop shared verbatim by `match_rank` and `match_suit` (the
source duplicates this block in the two methods): empty store → ("Unknown",
∞ = `none`); else scan all templates, tracking the smallest difference and
the first name achieving it, and only return the best name when that
difference is strictly below the given threshold. -/
def matchTemplates (templates : List (String × Img)) (img : Img) (diffMax : ℕ) :
    String × Option ℕ :=
  if templates.isEmpty then ("Unknown", none)
  else
    let best := templates.foldl (matchStep img) ("Unknown", none)
    if ltFin best.2 diffMax then best
    else ("Unknown", best.2)

/-- `ImprovedCardDetector.match_rank`. -/
def ImprovedCardDetector.match_rank (d : ImprovedCardDetector) (rank_img : Img) :
    String × Option ℕ :=
  matchTemplates d.rank_templates rank_img ImprovedCardDetector.RANK_DIFF_MAX

/-- `ImprovedCardDetector.match_suit`. -/
def ImprovedCardDetector.match_suit (d : ImprovedCardDetector) (suit_img : Img) :
    String × Option ℕ :=
  matchTemplates d.suit_templates suit_img ImprovedCardDetector.SUIT_DIFF_MAX

/- ### detect_and_identify_cards -/

/-- The inline confidence expression `1.0 - (diff / DIFF_MAX)` of the
detection loop.  A difference of `float('inf')` (empty template store,
`none`) makes the expression `-inf`, modelled as `none`; a finite difference
gives the exact rational `1 - diff / max`.  There is no clamping in the
source. -/
def confExpr (diff : Option ℕ) (diffMax : ℕ) : Option ℚ :=
  diff.map fun n => 1 - (n : ℚ) / (diffMax : ℚ)

/-- The output record appended for each successfully processed candidate. -/
structure DetectedCard where
  rank : String
  suit : String
  rank_confidence : Option ℚ
  suit_confidence : Option ℚ
  contour : Contour
  bbox : ℕ × ℕ × ℕ × ℕ
  center : ℕ × ℕ
  flattened : Img
  rank_img : Img
  suit_img : Img

/-- The body of the per-candidate `try:` block of
`detect_and_identify_cards`: flatten, extract the corner, isolate the glyphs,
match both kinds and build the result record.  The only modelled failure is
the singular perspective transform, which the spec places at the flattener. -/
def processCandidate (d : ImprovedCardDetector) (gray : Img) (ci : CardInfo) :
    Except String DetectedCard :=
  match ImprovedCardDetector.flatten_card gray ci.approx with
  | .error e => .error e
  | .ok flattened =>
    let imgs := ImprovedCardDetector.extract_and_process_corner flattened
    let sized := ImprovedCardDetector.isolate_rank_and_suit imgs.1 imgs.2
    let rankRes := d.match_rank sized.1
    let suitRes := d.match_suit sized.2
    .ok
      { rank := rankRes.1
        suit := suitRes.1
        rank_confidence := confExpr rankRes.2 ImprovedCardDetector.RANK_DIFF_MAX
        suit_confidence := confExpr suitRes.2 ImprovedCardDetector.SUIT_DIFF_MAX
        contour := ci.contour
        bbox := ci.bbox
        center := (ci.bbox.1 + ci.bbox.2.2.1 / 2, ci.bbox.2.1 + ci.bbox.2.2.2 / 2)
        flattened := flattened
        rank_img := sized.1
        suit_img := sized.2 }

/-- The candidate loop of `detect_and_identify_cards`: each candidate is
processed inside its own `try`/`except`; a failing candidate is skipped
(`continue`) and every successful one appends its record. -/
def processCards (d : ImprovedCardDetector) (gray : Img) (cands : List CardInfo) :
    List DetectedCard :=
  cands.foldl (fun acc ci =>
    match processCandidate d gray ci with
    | .ok c => acc ++ [c]
    | .error _ => acc) []

/-- `ImprovedCardDetector.detect_and_identify_cards`, from the point where the
external preprocessing (`cv2.cvtColor` / blur / `cv2.adaptiveThreshold` /
`cv2.findContours`, all OpenCV) has produced the grayscale frame and the
contour list: filter candidates with `find_cards`, then run the per-candidate
loop. -/
def ImprovedCardDetector.detect_and_identify_cards (d : ImprovedCardDetector)
    (gray : Img) (contours : List Contour) : List DetectedCard :=
  processCards d gray (ImprovedCardDetector.find_cards contours)

/- ### Lemmas: argmin4 / argmax4 pick a unique strict extremum -/

theorem argmin4_eq_of_unique (f : Fin 4 → ℤ) (i : Fin 4)
    (h : ∀ j, j ≠ i → f i < f j) : argmin4 f = i := by
  fin_cases i
  · have h1 : f 0 < f 1 := h 1 (by decide)
    have h2 : f 0 < f 2 := h 2 (by decide)
    have h3 : f 0 < f 3 := h 3 (by decide)
    show argmin4 f = 0
    simp only [argmin4]
    split_ifs <;> first | rfl | (exfalso; omega)
  · have h0 : f 1 < f 0 := h 0 (by decide)
    have h2 : f 1 < f 2 := h 2 (by decide)
    have h3 : f 1 < f 3 := h 3 (by decide)
    show argmin4 f = 1
    simp only [argmin4]
    split_ifs <;> first | rfl | (exfalso; omega)
  · have h0 : f 2 < f 0 := h 0 (by decide)
    have h1 : f 2 < f 1 := h 1 (by decide)
    have h3 : f 2 < f 3 := h 3 (by decide)
    show argmin4 f = 2
    simp only [argmin4]
    split_ifs <;> first | rfl | (exfalso; omega)
  · have h0 : f 3 < f 0 := h 0 (by decide)
    have h1 : f 3 < f 1 := h 1 (by decide)
    have h2 : f 3 < f 2 := h 2 (by decide)
    show argmin4 f = 3
    simp only [argmin4]
    split_ifs <;> first | rfl | (exfalso; omega)

theorem argmax4_eq_of_unique (f : Fin 4 → ℤ) (i : Fin 4)
    (h : ∀ j, j ≠ i → f j < f i) : argmax4 f = i := by
  fin_cases i
  · have h1 : f 1 < f 0 := h 1 (by decide)
    have h2 : f 2 < f 0 := h 2 (by decide)
    have h3 : f 3 < f 0 := h 3 (by decide)
    show argmax4 f = 0
    simp only [argmax4]
    split_ifs <;> first | rfl | (exfalso; omega)
  · have h0 : f 0 < f 1 := h 0 (by decide)
    have h2 : f 2 < f 1 := h 2 (by decide)
    have h3 : f 3 < f 1 := h 3 (by decide)
    show argmax4 f = 1
    simp only [argmax4]
    split_ifs <;> first | rfl | (exfalso; omega)
  · have h0 : f 0 < f 2 := h 0 (by decide)
    have h1 : f 1 < f 2 := h 1 (by decide)
    have h3 : f 3 < f 2 := h 3 (by decide)
    show argmax4 f = 2
    simp only [argmax4]
    split_ifs <;> first | rfl | (exfalso; omega)
  · have h0 : f 0 < f 3 := h 0 (by decide)
    have h1 : f 1 < f 3 := h 1 (by decide)
    have h2 : f 2 < f 3 := h 2 (by decide)
    show argmax4 f = 3
    simp only [argmax4]
    split_ifs <;> first | rfl | (exfalso; omega)

/- ### C1: canonical ordering of the four corner points -/

theorem order_points_apply_zero (pts : Fin 4 → ℤ × ℤ) :
    order_points pts 0 = pts (argmin4 fun i => (pts i).1 + (pts i).2) := by
  simp [order_points]

theorem order_points_apply_one (pts : Fin 4 → ℤ × ℤ) :
    order_points pts 1 = pts (argmin4 fun i => (pts i).2 - (pts i).1) := by
  simp [order_points]

theorem order_points_apply_two (pts : Fin 4 → ℤ × ℤ) :
    order_points pts 2 = pts (argmax4 fun i => (pts i).1 + (pts i).2) := by
  simp [order_points, Matrix.cons_val_two, Matrix.tail_cons, Matrix.head_cons]

theorem order_points_apply_three (pts : Fin 4 → ℤ × ℤ) :
    order_points pts 3 = pts (argmax4 fun i => (pts i).2 - (pts i).1) := by
  simp [order_points, Matrix.cons_val_three, Matrix.tail_cons, Matrix.head_cons]

/-- A fixed counterclockwise-labelled square, used as concrete input. -/
def ptsCCW : Fin 4 → ℤ × ℤ := ![(0, 0), (10, 0), (10, 10), (0, 10)]

/-- C1, counterexample.  On the square (0,0),(10,0),(10,10),(0,10) — whose
coordinate sums and differences all have unique strict extremisers, so the
claim's precondition holds — the point with minimum (x − y) is (0, 10)
(index 3), yet `order_points` places (10, 0) in the top-right slot:
`np.diff` computes y − x, so the top-right slot receives the minimum of
(y − x), i.e. the *maximum* of (x − y), contradicting the claim. -/
theorem order_points_c1_counterexample :
    (∀ j : Fin 4, j ≠ 0 →
      (ptsCCW 0).1 + (ptsCCW 0).2 < (ptsCCW j).1 + (ptsCCW j).2) ∧
    (∀ j : Fin 4, j ≠ 2 →
      (ptsCCW j).1 + (ptsCCW j).2 < (ptsCCW 2).1 + (ptsCCW 2).2) ∧
    (∀ j : Fin 4, j ≠ 3 →
      (ptsCCW 3).1 - (ptsCCW 3).2 < (ptsCCW j).1 - (ptsCCW j).2) ∧
    (∀ j : Fin 4, j ≠ 1 →
      (ptsCCW j).1 - (ptsCCW j).2 < (ptsCCW 1).1 - (ptsCCW 1).2) ∧
    ptsCCW 3 = (0, 10) ∧
    order_points ptsCCW 1 = (10, 0) ∧
    ((10, 0) : ℤ × ℤ) ≠ (0, 10) := by
  decide

/-- C1, amended.  When x+y and y−x each have a unique strict minimiser and
maximiser, `order_points` returns (TL, TR, BR, BL) where TL minimises x+y,
BR maximises x+y, TR minimises y−x (equivalently maximises x−y) and BL
maximises y−x (equivalently minimises x−y); consequently the output is
invariant under every permutation of the four input points. -/
theorem order_points_canonical (pts : Fin 4 → ℤ × ℤ) (i0 i1 i2 i3 : Fin 4)
    (h0 : ∀ j, j ≠ i0 → (pts i0).1 + (pts i0).2 < (pts j).1 + (pts j).2)
    (h1 : ∀ j, j ≠ i1 → (pts i1).2 - (pts i1).1 < (pts j).2 - (pts j).1)
    (h2 : ∀ j, j ≠ i2 → (pts j).1 + (pts j).2 < (pts i2).1 + (pts i2).2)
    (h3 : ∀ j, j ≠ i3 → (pts j).2 - (pts j).1 < (pts i3).2 - (pts i3).1) :
    order_points pts 0 = pts i0 ∧ order_points pts 1 = pts i1 ∧
    order_points pts 2 = pts i2 ∧ order_points pts 3 = pts i3 ∧
    ∀ σ : Equiv.Perm (Fin 4), order_points (fun k => pts (σ k)) = order_points pts := by
  have e0 := argmin4_eq_of_unique (fun i => (pts i).1 + (pts i).2) i0 h0
  have e1 := argmin4_eq_of_unique (fun i => (pts i).2 - (pts i).1) i1 h1
  have e2 := argmax4_eq_of_unique (fun i => (pts i).1 + (pts i).2) i2 h2
  have e3 := argmax4_eq_of_unique (fun i => (pts i).2 - (pts i).1) i3 h3
  refine ⟨by rw [order_points_apply_zero, e0], by rw [order_points_apply_one, e1],
    by rw [order_points_apply_two, e2], by rw [order_points_apply_three, e3], ?_⟩
  intro σ
  have p0 : ∀ j, j ≠ σ.symm i0 →
      (pts (σ (σ.symm i0))).1 + (pts (σ (σ.symm i0))).2 < (pts (σ j)).1 + (pts (σ j)).2 := by
    intro j hj
    rw [Equiv.apply_symm_apply]
    exact h0 (σ j) fun he => hj ((Equiv.apply_eq_iff_eq_symm_apply σ).mp he)
  have p1 : ∀ j, j ≠ σ.symm i1 →
      (pts (σ (σ.symm i1))).2 - (pts (σ (σ.symm i1))).1 < (pts (σ j)).2 - (pts (σ j)).1 := by
    intro j hj
    rw [Equiv.apply_symm_apply]
    exact h1 (σ j) fun he => hj ((Equiv.apply_eq_iff_eq_symm_apply σ).mp he)
  have p2 : ∀ j, j ≠ σ.symm i2 →
      (pts (σ j)).1 + (pts (σ j)).2 < (pts (σ (σ.symm i2))).1 + (pts (σ (σ.symm i2))).2 := by
    intro j hj
    rw [Equiv.apply_symm_apply]
    exact h2 (σ j) fun he => hj ((Equiv.apply_eq_iff_eq_symm_apply σ).mp he)
  have p3 : ∀ j, j ≠ σ.symm i3 →
      (pts (σ j)).2 - (pts (σ j)).1 < (pts (σ (σ.symm i3))).2 - (pts (σ (σ.symm i3))).1 := by
    intro j hj
    rw [Equiv.apply_symm_apply]
    exact h3 (σ j) fun he => hj ((Equiv.apply_eq_iff_eq_symm_apply σ).mp he)
  have f0 := argmin4_eq_of_unique (fun i => (pts (σ i)).1 + (pts (σ i)).2) (σ.symm i0) p0
  have f1 := argmin4_eq_of_unique (fun i => (pts (σ i)).2 - (pts (σ i)).1) (σ.symm i1) p1
  have f2 := argmax4_eq_of_unique (fun i => (pts (σ i)).1 + (pts (σ i)).2) (σ.symm i2) p2
  have f3 := argmax4_eq_of_unique (fun i => (pts (σ i)).2 - (pts (σ i)).1) (σ.symm i3) p3
  funext k
  fin_cases k
  · show order_points (fun k => pts (σ k)) 0 = order_points pts 0
    rw [order_points_apply_zero, order_points_apply_zero, e0, f0,
      Equiv.apply_symm_apply]
  · show order_points (fun k => pts (σ k)) 1 = order_points pts 1
    rw [order_points_apply_one, order_points_apply_one, e1, f1,
      Equiv.apply_symm_apply]
  · show order_points (fun k => pts (σ k)) 2 = order_points pts 2
    rw [order_points_apply_two, order_points_apply_two, e2, f2,
      Equiv.apply_symm_apply]
  · show order_points (fun k => pts (σ k)) 3 = order_points pts 3
    rw [order_points_apply_three, order_points_apply_three, e3, f3,
      Equiv.apply_symm_apply]

/-- Witness for `order_points_canonical` on the concrete square `ptsCCW`,
with the transposition of the first two points as the permutation. -/
theorem order_points_canonical_witness :
    (∀ j : Fin 4, j ≠ 0 →
      (ptsCCW 0).1 + (ptsCCW 0).2 < (ptsCCW j).1 + (ptsCCW j).2) ∧
    order_points (fun k => ptsCCW (Equiv.swap 0 1 k)) = order_points ptsCCW := by
  refine ⟨by decide, ?_⟩
  exact (order_points_canonical ptsCCW 0 1 2 3 (by decide) (by decide) (by decide)
    (by decide)).2.2.2.2 (Equiv.swap 0 1)

/- ### C6 / C7: admission window of find_cards -/

/-- A card-shaped contour comfortably inside every admission window:
area 30000, a 4-vertex quadrilateral, portrait bounding box 60×100. -/
def demoContour : Contour :=
  ⟨30000, [(0, 0), (199, 0), (199, 299), (0, 299)], (0, 0, 60, 100)⟩

/-- A contour whose area sits exactly on CARD_MIN_AREA. -/
def boundaryContour : Contour :=
  ⟨25000, [(0, 0), (199, 0), (199, 299), (0, 299)], (0, 0, 60, 100)⟩

/-- The same card as `demoContour` rotated a quarter turn: equal area,
4 vertices, bounding box 100×60 (aspect ratio the reciprocal of 60/100). -/
def landscapeContour : Contour :=
  ⟨30000, [(0, 0), (299, 0), (299, 199), (0, 199)], (0, 0, 100, 60)⟩

/-- The admission test, in propositional form. -/
theorem cardPass_iff (c : Contour) :
    cardPass c = true ↔
      (ImprovedCardDetector.CARD_MIN_AREA < c.area ∧
       c.area < ImprovedCardDetector.CARD_MAX_AREA ∧
       c.approx.length = 4 ∧
       (0.4 : ℚ) < bboxAspect c.bbox ∧ bboxAspect c.bbox < (1.0 : ℚ)) := by
  simp [cardPass, and_assoc]

/-- Everything `find_cards` emits comes from an input contour passing the
admission test. -/
theorem find_cards_sound (contours : List Contour) (ci : CardInfo)
    (hci : ci ∈ ImprovedCardDetector.find_cards contours) :
    ∃ c ∈ contours, ci = mkCardInfo c ∧ cardPass c = true := by
  unfold ImprovedCardDetector.find_cards at hci
  obtain ⟨c, hc, hmk⟩ := List.mem_map.mp hci
  exact ⟨c, (List.perm_insertionSort areaGE contours).mem_iff.mp (List.mem_filter.mp hc).1,
    hmk.symm, (List.mem_filter.mp hc).2⟩

/-- Every input contour passing the admission test is emitted by
`find_cards`. -/
theorem find_cards_complete (contours : List Contour) (c : Contour)
    (hc : c ∈ contours) (hp : cardPass c = true) :
    mkCardInfo c ∈ ImprovedCardDetector.find_cards contours :=
  List.mem_map_of_mem mkCardInfo
    (List.mem_filter.mpr ⟨(List.perm_insertionSort areaGE contours).mem_iff.mpr hc, hp⟩)

/-- C6, counterexample.  A 4-vertex contour with admissible aspect ratio and
area exactly CARD_MIN_AREA = 25000 — inside the claim's closed window
[CARD_MIN_AREA, CARD_MAX_AREA] — is rejected by `find_cards`, because the
source admits only `CARD_MIN_AREA < area < CARD_MAX_AREA` (strict). -/
theorem find_cards_c6_counterexample :
    ImprovedCardDetector.find_cards [boundaryContour] = [] ∧
    ImprovedCardDetector.CARD_MIN_AREA ≤ boundaryContour.area ∧
    boundaryContour.area ≤ ImprovedCardDetector.CARD_MAX_AREA ∧
    boundaryContour.approx.length = 4 ∧
    (0.4 : ℚ) < bboxAspect boundaryContour.bbox ∧
    bboxAspect boundaryContour.bbox < 1 := by
  have hbf : cardPass boundaryContour = false := by
    rw [Bool.eq_false_iff, Ne, cardPass_iff]
    intro h
    have h1 := h.1
    norm_num [boundaryContour, ImprovedCardDetector.CARD_MIN_AREA] at h1
  refine ⟨?_, ?_, ?_, ?_, ?_, ?_⟩
  · simp [ImprovedCardDetector.find_cards, List.insertionSort, List.orderedInsert, hbf]
  · norm_num [boundaryContour, ImprovedCardDetector.CARD_MIN_AREA]
  · norm_num [boundaryContour, ImprovedCardDetector.CARD_MAX_AREA]
  · norm_num [boundaryContour]
  · norm_num [boundaryContour, bboxAspect]
  · norm_num [boundaryContour, bboxAspect]

/-- C6, amended.  `find_cards` admits a contour only if its area is strictly
inside (CARD_MIN_AREA, CARD_MAX_AREA) — so in particular an area below
CARD_MIN_AREA (such as a 10×10 square of area 100) never appears — and every
contour with area strictly inside the window, exactly 4 approximation
vertices and aspect ratio strictly inside (0.4, 1.0) does appear. -/
theorem find_cards_area_window (contours : List Contour) :
    (∀ ci ∈ ImprovedCardDetector.find_cards contours,
      ImprovedCardDetector.CARD_MIN_AREA < ci.area ∧
      ci.area < ImprovedCardDetector.CARD_MAX_AREA) ∧
    (∀ c ∈ contours, ImprovedCardDetector.CARD_MIN_AREA < c.area →
      c.area < ImprovedCardDetector.CARD_MAX_AREA → c.approx.length = 4 →
      (0.4 : ℚ) < bboxAspect c.bbox → bboxAspect c.bbox < (1.0 : ℚ) →
      mkCardInfo c ∈ ImprovedCardDetector.find_cards contours) := by
  constructor
  · intro ci hci
    obtain ⟨c, _, hmk, hpass⟩ := find_cards_sound contours ci hci
    rw [cardPass_iff] at hpass
    have harea : ci.area = c.area := by rw [hmk]; rfl
    exact ⟨harea ▸ hpass.1, harea ▸ hpass.2.1⟩
  · intro c hc hmin hmax hlen hlo hhi
    exact find_cards_complete contours c hc
      ((cardPass_iff c).mpr ⟨hmin, hmax, hlen, hlo, hhi⟩)

/-- Witness for `find_cards_area_window`: the concrete portrait contour is
admitted. -/
theorem find_cards_area_window_witness :
    ((0.4 : ℚ) < bboxAspect demoContour.bbox ∧
     bboxAspect demoContour.bbox < (1.0 : ℚ)) ∧
    mkCardInfo demoContour ∈ ImprovedCardDetector.find_cards [demoContour] := by
  refine ⟨⟨?_, ?_⟩, ?_⟩
  · norm_num [demoContour, bboxAspect]
  · norm_num [demoContour, bboxAspect]
  · exact (find_cards_area_window [demoContour]).2 demoContour (by simp)
      (by norm_num [demoContour, ImprovedCardDetector.CARD_MIN_AREA])
      (by norm_num [demoContour, ImprovedCardDetector.CARD_MAX_AREA])
      (by norm_num [demoContour])
      (by norm_num [demoContour, bboxAspect])
      (by norm_num [demoContour, bboxAspect])

/-- C7: the aspect-ratio test admits only taller-than-wide bounding boxes.
The portrait contour (60×100, ratio 0.6) is admitted, but the same card
rotated 90° (100×60, ratio 5/3 = 1/0.6) never appears in the output although
it satisfies the area and 4-vertex tests — the source window
`0.4 < w/h < 1.0` excludes every ratio ≥ 1, contradicting the spec's
requirement that both orientations be admitted. -/
theorem find_cards_c7_landscape_rejected :
    mkCardInfo demoContour ∈
      ImprovedCardDetector.find_cards [demoContour, landscapeContour] ∧
    (∀ ci ∈ ImprovedCardDetector.find_cards [demoContour, landscapeContour],
      ci ≠ mkCardInfo landscapeContour) ∧
    bboxAspect landscapeContour.bbox = 1 / bboxAspect demoContour.bbox ∧
    landscapeContour.approx.length = 4 ∧
    ImprovedCardDetector.CARD_MIN_AREA < landscapeContour.area ∧
    landscapeContour.area < ImprovedCardDetector.CARD_MAX_AREA := by
  have hl : cardPass landscapeContour = false := by
    rw [Bool.eq_false_iff, Ne, cardPass_iff]
    intro h
    have h5 := h.2.2.2.2
    norm_num [landscapeContour, bboxAspect] at h5
  refine ⟨?_, ?_, ?_, ?_, ?_, ?_⟩
  · refine find_cards_complete _ demoContour (by simp) ((cardPass_iff _).mpr ?_)
    refine ⟨?_, ?_, ?_, ?_, ?_⟩
    · norm_num [demoContour, ImprovedCardDetector.CARD_MIN_AREA]
    · norm_num [demoContour, ImprovedCardDetector.CARD_MAX_AREA]
    · norm_num [demoContour]
    · norm_num [demoContour, bboxAspect]
    · norm_num [demoContour, bboxAspect]
  · intro ci hci heq
    obtain ⟨c, _, hmk, hpass⟩ := find_cards_sound _ ci hci
    have hcl : c = landscapeContour := by
      have := congrArg CardInfo.contour (hmk.symm.trans heq)
      simpa [mkCardInfo] using this
    rw [hcl, hl] at hpass
    exact Bool.false_ne_true hpass
  · norm_num [demoContour, landscapeContour, bboxAspect]
  · norm_num [landscapeContour]
  · norm_num [landscapeContour, ImprovedCardDetector.CARD_MIN_AREA]
  · norm_num [landscapeContour, ImprovedCardDetector.CARD_MAX_AREA]

/- ### Lemmas about the matching loop -/

theorem matchStep_cases (img : Img) (acc : String × Option ℕ) (p : String × Img) :
    matchStep img acc p = (p.1, some (diffScore img p.2)) ∨ matchStep img acc p = acc := by
  simp only [matchStep]
  split_ifs
  · exact Or.inl rfl
  · exact Or.inr rfl

/-- The final best of the matching loop is the accumulator or one of the
scanned templates. -/
theorem matchFold_shape (img : Img) (l : List (String × Img)) :
    ∀ acc, l.foldl (matchStep img) acc = acc ∨
      ∃ p ∈ l, l.foldl (matchStep img) acc = (p.1, some (diffScore img p.2)) := by
  induction l with
  | nil => intro acc; exact Or.inl rfl
  | cons q l ih =>
    intro acc
    rw [List.foldl_cons]
    rcases matchStep_cases img acc q with hq | hq
    · rcases ih (matchStep img acc q) with h | ⟨p, hp, he⟩
      · exact Or.inr ⟨q, List.mem_cons_self q l, by rw [h, hq]⟩
      · exact Or.inr ⟨p, List.mem_cons_of_mem q hp, he⟩
    · rw [hq]
      rcases ih acc with h | ⟨p, hp, he⟩
      · exact Or.inl h
      · exact Or.inr ⟨p, List.mem_cons_of_mem q hp, he⟩

/-- The matching loop never worsens a finite running best. -/
theorem matchFold_le_acc (img : Img) (l : List (String × Img)) :
    ∀ acc n, acc.2 = some n →
      ∃ m, (l.foldl (matchStep img) acc).2 = some m ∧ m ≤ n := by
  induction l with
  | nil => intro acc n h; exact ⟨n, h, le_refl n⟩
  | cons q l ih =>
    intro acc n h
    rw [List.foldl_cons]
    simp only [matchStep]
    split_ifs with hc
    · have hd : diffScore img q.2 < n := by
        rw [h] at hc
        simpa [ltInf] using hc
      obtain ⟨m, hm, hle⟩ := ih (q.1, some (diffScore img q.2)) (diffScore img q.2) rfl
      exact ⟨m, hm, le_trans hle (le_of_lt hd)⟩
    · exact ih acc n h

/-- The final best difference is at most the difference of every scanned
template (and in particular is finite as soon as one template is scanned). -/
theorem matchFold_min (img : Img) (l : List (String × Img)) :
    ∀ acc, ∀ p ∈ l,
      ∃ m, (l.foldl (matchStep img) acc).2 = some m ∧ m ≤ diffScore img p.2 := by
  induction l with
  | nil => intro _ p hp; cases hp
  | cons q l ih =>
    intro acc p hp
    rw [List.foldl_cons]
    rcases List.mem_cons.mp hp with rfl | hpl
    · simp only [matchStep]
      split_ifs with hc
      · exact matchFold_le_acc img l _ (diffScore img p.2) rfl
      · match hacc : acc.2 with
        | none => rw [hacc] at hc; simp [ltInf] at hc
        | some b =>
          have hb : b ≤ diffScore img p.2 := by
            rw [hacc] at hc
            have hnb : ¬ (diffScore img p.2 < b) := by simpa [ltInf] using hc
            omega
          obtain ⟨m, hm, hle⟩ := matchFold_le_acc img l acc b hacc
          exact ⟨m, hm, le_trans hle hb⟩
    · exact ih _ p hpl

/-- Full specification of the shared matching loop on a nonempty store:
the reported difference is the minimum over all templates; when it is
strictly below the threshold the first name achieving it is reported,
otherwise "Unknown". -/
theorem matchTemplates_spec (l : List (String × Img)) (g : Img) (dm : ℕ)
    (hne : l ≠ []) :
    ∃ n, (matchTemplates l g dm).2 = some n ∧
      (∀ p ∈ l, n ≤ diffScore g p.2) ∧
      (∃ p ∈ l, diffScore g p.2 = n) ∧
      (n < dm → ∃ p ∈ l, diffScore g p.2 = n ∧ (matchTemplates l g dm).1 = p.1) ∧
      (dm ≤ n → (matchTemplates l g dm).1 = "Unknown") := by
  obtain ⟨q, hq⟩ := List.exists_mem_of_ne_nil l hne
  obtain ⟨n, hn, hnq⟩ := matchFold_min g l ("Unknown", none) q hq
  have hshape := matchFold_shape g l ("Unknown", none)
  rcases hshape with h | ⟨p, hp, he⟩
  · rw [h] at hn; cases hn
  · have hp1 : diffScore g p.2 = n := by
      rw [he] at hn
      exact Option.some_injective ℕ hn
    have hval : l.foldl (matchStep g) ("Unknown", none) = (p.1, some n) := by
      rw [he, hp1]
    have hmin : ∀ r ∈ l, n ≤ diffScore g r.2 := by
      intro r hr
      obtain ⟨m, hm, hle⟩ := matchFold_min g l ("Unknown", none) r hr
      rw [hn] at hm
      exact (Option.some_injective ℕ hm) ▸ hle
    have hempty : l.isEmpty = false := by
      simpa using hne
    refine ⟨n, ?_, hmin, ⟨p, hp, hp1⟩, ?_, ?_⟩
    · unfold matchTemplates
      rw [hempty]
      simp only [Bool.false_eq_true, if_false, hval]
      by_cases hdm : n < dm
      · rw [if_pos (by simp [ltFin, hdm])]
      · rw [if_neg (by simp [ltFin, hdm])]
    · intro hdm
      refine ⟨p, hp, hp1, ?_⟩
      unfold matchTemplates
      rw [hempty]
      simp only [Bool.false_eq_true, if_false, hval]
      rw [if_pos (by simp [ltFin, hdm])]
    · intro hdm
      unfold matchTemplates
      rw [hempty]
      simp only [Bool.false_eq_true, if_false, hval]
      rw [if_neg (by simp [ltFin, Nat.not_lt.mpr hdm])]

/-- A glyph differs from itself by zero. -/
theorem diffScore_self (g : Img) : diffScore g g = 0 := by
  simp [diffScore]

/- ### C3: threshold behaviour of the matcher -/

/-- An all-black glyph of the standard rank size. -/
def flatGlyph : Img := constImg 125 70 0

/-- A rank template differing from `flatGlyph` in exactly 2000 pixels of full
intensity, so the difference score is exactly RANK_DIFF_MAX = 2000. -/
def edgeTemplate : Img := ⟨125, 70, fun i j => if i * 70 + j < 2000 then 255 else 0⟩

/-- A detector holding that single rank template. -/
def edgeDet : ImprovedCardDetector := ⟨[("Ace", edgeTemplate)], []⟩

/-- C3, counterexample.  With a single template at difference exactly 2000,
the minimum difference does **not exceed** RANK_DIFF_MAX = 2000, yet
`match_rank` reports "Unknown": the source accepts a best match only when
`best_diff < RANK_DIFF_MAX` (strict), so equality is rejected. -/
theorem match_rank_c3_counterexample :
    diffScore flatGlyph edgeTemplate = 2000 ∧
    ¬ (2000 > ImprovedCardDetector.RANK_DIFF_MAX) ∧
    edgeDet.match_rank flatGlyph = ("Unknown", some 2000) := by
  have hd : diffScore flatGlyph edgeTemplate = 2000 := by decide
  refine ⟨hd, by norm_num [ImprovedCardDetector.RANK_DIFF_MAX], ?_⟩
  show matchTemplates [("Ace", edgeTemplate)] flatGlyph
    ImprovedCardDetector.RANK_DIFF_MAX = ("Unknown", some 2000)
  unfold matchTemplates
  simp [matchStep, ltInf, ltFin, hd, ImprovedCardDetector.RANK_DIFF_MAX]

/-- C3, amended.  For every glyph and nonempty template store of a kind, the
reported difference is the minimum difference over that kind's templates;
when the minimum is strictly below the kind's threshold (RANK_DIFF_MAX for
ranks, SUIT_DIFF_MAX for suits), the name of a template achieving the minimum
is returned, and "Unknown" is returned exactly when the minimum is ≥ the
threshold. -/
theorem match_unknown_threshold (d : ImprovedCardDetector) (g s : Img)
    (hr : d.rank_templates ≠ []) (hs : d.suit_templates ≠ []) :
    (∃ n, (d.match_rank g).2 = some n ∧
      (∀ p ∈ d.rank_templates, n ≤ diffScore g p.2) ∧
      (∃ p ∈ d.rank_templates, diffScore g p.2 = n) ∧
      (n < ImprovedCardDetector.RANK_DIFF_MAX →
        ∃ p ∈ d.rank_templates, diffScore g p.2 = n ∧ (d.match_rank g).1 = p.1) ∧
      (ImprovedCardDetector.RANK_DIFF_MAX ≤ n → (d.match_rank g).1 = "Unknown")) ∧
    (∃ n, (d.match_suit s).2 = some n ∧
      (∀ p ∈ d.suit_templates, n ≤ diffScore s p.2) ∧
      (∃ p ∈ d.suit_templates, diffScore s p.2 = n) ∧
      (n < ImprovedCardDetector.SUIT_DIFF_MAX →
        ∃ p ∈ d.suit_templates, diffScore s p.2 = n ∧ (d.match_suit s).1 = p.1) ∧
      (ImprovedCardDetector.SUIT_DIFF_MAX ≤ n → (d.match_suit s).1 = "Unknown")) :=
  ⟨matchTemplates_spec d.rank_templates g ImprovedCardDetector.RANK_DIFF_MAX hr,
   matchTemplates_spec d.suit_templates s ImprovedCardDetector.SUIT_DIFF_MAX hs⟩

/-- A white rank template of the standard rank-template size. -/
def tplRank : Img :=
  constImg ImprovedCardDetector.RANK_HEIGHT ImprovedCardDetector.RANK_WIDTH 255

/-- A white suit template of the standard suit-template size. -/
def tplSuit : Img :=
  constImg ImprovedCardDetector.SUIT_HEIGHT ImprovedCardDetector.SUIT_WIDTH 255

/-- A detector holding one rank and one suit template. -/
def roundtripDet : ImprovedCardDetector := ⟨[("Ace", tplRank)], [("Hearts", tplSuit)]⟩

/-- Witness for `match_unknown_threshold` on the concrete one-template
stores. -/
theorem match_unknown_threshold_witness :
    (roundtripDet.rank_templates ≠ [] ∧ roundtripDet.suit_templates ≠ []) ∧
    (∃ n, (roundtripDet.match_rank tplRank).2 = some n ∧
      (∀ p ∈ roundtripDet.rank_templates, n ≤ diffScore tplRank p.2) ∧
      (∃ p ∈ roundtripDet.rank_templates, diffScore tplRank p.2 = n) ∧
      (n < ImprovedCardDetector.RANK_DIFF_MAX →
        ∃ p ∈ roundtripDet.rank_templates, diffScore tplRank p.2 = n ∧
          (roundtripDet.match_rank tplRank).1 = p.1) ∧
      (ImprovedCardDetector.RANK_DIFF_MAX ≤ n →
        (roundtripDet.match_rank tplRank).1 = "Unknown")) := by
  have h1 : roundtripDet.rank_templates ≠ [] := by simp [roundtripDet]
  have h2 : roundtripDet.suit_templates ≠ [] := by simp [roundtripDet]
  exact ⟨⟨h1, h2⟩, (match_unknown_threshold roundtripDet tplRank tplSuit h1 h2).1⟩

/- ### C9: exact-template round trip -/

/-- C9.  A glyph pixel-identical to a stored template of its kind — with no
other template of that kind at difference zero — is matched to that
template's name with difference score 0, and the confidence expression of the
detection loop evaluates to exactly 1. -/
theorem match_roundtrip (d : ImprovedCardDetector) (n : String) (g : Img)
    (m : String) (s : Img)
    (hr : (n, g) ∈ d.rank_templates)
    (hru : ∀ p ∈ d.rank_templates, diffScore g p.2 = 0 → p.1 = n)
    (hs : (m, s) ∈ d.suit_templates)
    (hsu : ∀ p ∈ d.suit_templates, diffScore s p.2 = 0 → p.1 = m) :
    d.match_rank g = (n, some 0) ∧
    confExpr (d.match_rank g).2 ImprovedCardDetector.RANK_DIFF_MAX = some 1 ∧
    d.match_suit s = (m, some 0) ∧
    confExpr (d.match_suit s).2 ImprovedCardDetector.SUIT_DIFF_MAX = some 1 := by
  have hrank : d.match_rank g = (n, some 0) := by
    have hne : d.rank_templates ≠ [] := List.ne_nil_of_mem hr
    obtain ⟨k, hk, hmin, _, hbelow, _⟩ :=
      matchTemplates_spec d.rank_templates g ImprovedCardDetector.RANK_DIFF_MAX hne
    have hk0 : k = 0 := by
      have hle := hmin (n, g) hr
      rw [diffScore_self] at hle
      omega
    subst hk0
    obtain ⟨p, hpmem, hpd, hpname⟩ :=
      hbelow (by norm_num [ImprovedCardDetector.RANK_DIFF_MAX])
    have h1 : (d.match_rank g).1 = n := by
      rw [show (d.match_rank g).1 =
        (matchTemplates d.rank_templates g ImprovedCardDetector.RANK_DIFF_MAX).1
        from rfl, hpname, hru p hpmem hpd]
    exact Prod.ext h1 hk
  have hsuit : d.match_suit s = (m, some 0) := by
    have hne : d.suit_templates ≠ [] := List.ne_nil_of_mem hs
    obtain ⟨k, hk, hmin, _, hbelow, _⟩ :=
      matchTemplates_spec d.suit_templates s ImprovedCardDetector.SUIT_DIFF_MAX hne
    have hk0 : k = 0 := by
      have hle := hmin (m, s) hs
      rw [diffScore_self] at hle
      omega
    subst hk0
    obtain ⟨p, hpmem, hpd, hpname⟩ :=
      hbelow (by norm_num [ImprovedCardDetector.SUIT_DIFF_MAX])
    have h1 : (d.match_suit s).1 = m := by
      rw [show (d.match_suit s).1 =
        (matchTemplates d.suit_templates s ImprovedCardDetector.SUIT_DIFF_MAX).1
        from rfl, hpname, hsu p hpmem hpd]
    exact Prod.ext h1 hk
  refine ⟨hrank, ?_, hsuit, ?_⟩
  · rw [hrank]
    norm_num [confExpr]
  · rw [hsuit]
    norm_num [confExpr]

/-- Witness for `match_roundtrip` on the concrete one-template stores. -/
theorem match_roundtrip_witness :
    (("Ace", tplRank) ∈ roundtripDet.rank_templates ∧
     ("Hearts", tplSuit) ∈ roundtripDet.suit_templates) ∧
    roundtripDet.match_rank tplRank = ("Ace", some 0) ∧
    confExpr (roundtripDet.match_rank tplRank).2
      ImprovedCardDetector.RANK_DIFF_MAX = some 1 ∧
    roundtripDet.match_suit tplSuit = ("Hearts", some 0) ∧
    confExpr (roundtripDet.match_suit tplSuit).2
      ImprovedCardDetector.SUIT_DIFF_MAX = some 1 := by
  refine ⟨⟨by simp [roundtripDet], by simp [roundtripDet]⟩, ?_⟩
  exact match_roundtrip roundtripDet "Ace" tplRank "Hearts" tplSuit
    (by simp [roundtripDet])
    (by intro p hp _; simp only [roundtripDet, List.mem_singleton] at hp; rw [hp])
    (by simp [roundtripDet])
    (by intro p hp _; simp only [roundtripDet, List.mem_singleton] at hp; rw [hp])

/- ### C5: per-candidate isolation of failures -/

/-- The candidate loop is the try/except-filtered map of the per-candidate
processing. -/
theorem processCards_eq_filterMap (d : ImprovedCardDetector) (gray : Img) :
    ∀ cands : List CardInfo, processCards d gray cands =
      cands.filterMap fun ci => (processCandidate d gray ci).toOption := by
  have key : ∀ (cands : List CardInfo) (acc : List DetectedCard),
      cands.foldl (fun acc ci =>
        match processCandidate d gray ci with
        | .ok c => acc ++ [c]
        | .error _ => acc) acc =
      acc ++ cands.filterMap fun ci => (processCandidate d gray ci).toOption := by
    intro cands
    induction cands with
    | nil => intro acc; simp
    | cons ci l ih =>
      intro acc
      rw [List.foldl_cons, List.filterMap_cons]
      cases hp : processCandidate d gray ci with
      | ok c => simp [hp, Except.toOption, ih]
      | error e => simp [hp, Except.toOption, ih]
  intro cands
  simpa using key cands []

/-- A candidate whose four corner points, once ordered, form a degenerate
quadrilateral (a collinear or repeated triple). -/
def degenerateCandidate (ci : CardInfo) : Bool :=
  match reshape4 ci.approx with
  | none => false
  | some q => isDegenQuad (order_points q)

/-- A degenerate candidate makes the perspective flattening fail. -/
theorem processCandidate_degenerate (d : ImprovedCardDetector) (gray : Img)
    (ci : CardInfo) (h : degenerateCandidate ci = true) :
    processCandidate d gray ci = .error "singular transform" := by
  unfold degenerateCandidate at h
  unfold processCandidate ImprovedCardDetector.flatten_card
  cases hq : reshape4 ci.approx with
  | none => rw [hq] at h; cases h
  | some q =>
    rw [hq] at h
    have hdq : isDegenQuad (order_points q) = true := h
    simp [hq, hdq]

/-- C5.  The candidate loop processes candidates independently: a degenerate
candidate anywhere in the list is dropped without affecting the result for
the others, and every remaining candidate whose processing succeeds still
contributes its DetectedCard. -/
theorem detect_isolates_degenerate (d : ImprovedCardDetector) (gray : Img)
    (pre post : List CardInfo) (bad : CardInfo)
    (hbad : degenerateCandidate bad = true) :
    processCards d gray (pre ++ bad :: post) = processCards d gray (pre ++ post) ∧
    ∀ good ∈ pre ++ post, ∀ c, processCandidate d gray good = .ok c →
      c ∈ processCards d gray (pre ++ post) := by
  constructor
  · rw [processCards_eq_filterMap, processCards_eq_filterMap,
      List.filterMap_append, List.filterMap_append, List.filterMap_cons,
      processCandidate_degenerate d gray bad hbad]
    simp [Except.toOption]
  · intro good hgood c hc
    rw [processCards_eq_filterMap]
    exact List.mem_filterMap.mpr ⟨good, hgood, by rw [hc]; rfl⟩

/-- The all-dark camera frame used by the concrete pipeline runs. -/
def grayFrame : Img := constImg 480 640 0

/-- A demo detector with one all-dark rank template and one all-dark suit
template (both of the standard template sizes). -/
def demoDet : ImprovedCardDetector :=
  ⟨[("Ace", constImg 125 70 0)], [("Hearts", constImg 100 70 0)]⟩

/-- The candidate built from the admissible portrait contour. -/
def goodCardInfo : CardInfo := mkCardInfo demoContour

/-- A candidate whose corner points contain a collinear triple: after
ordering, the top-left and top-right corners coincide, so the quadrilateral
is degenerate. -/
def badCardInfo : CardInfo :=
  mkCardInfo ⟨30000, [(0, 0), (5, 5), (10, 10), (0, 20)], (0, 0, 60, 100)⟩

/-- Witness for `detect_isolates_degenerate`: one well-formed and one
degenerate candidate in the same frame. -/
theorem detect_isolates_degenerate_witness :
    degenerateCandidate badCardInfo = true ∧
    processCards demoDet grayFrame ([goodCardInfo] ++ badCardInfo :: []) =
      processCards demoDet grayFrame ([goodCardInfo] ++ []) := by
  refine ⟨by decide, ?_⟩
  exact (detect_isolates_degenerate demoDet grayFrame [goodCardInfo] [] badCardInfo
    (by decide)).1

/- ### C8 / C10: glyph isolation -/

/-- C8.  When no contour is found in a corner sub-region, the corresponding
glyph returned by `isolate_rank_and_suit` is the all-zero image of the
standard template size for its kind. -/
theorem isolate_blank_corner (rank_img suit_img : Img) :
    (findContoursBBox rank_img = [] →
      (ImprovedCardDetector.isolate_rank_and_suit rank_img suit_img).1 =
        zerosImg ImprovedCardDetector.RANK_HEIGHT ImprovedCardDetector.RANK_WIDTH) ∧
    (findContoursBBox suit_img = [] →
      (ImprovedCardDetector.isolate_rank_and_suit rank_img suit_img).2 =
        zerosImg ImprovedCardDetector.SUIT_HEIGHT ImprovedCardDetector.SUIT_WIDTH) := by
  constructor <;> intro h <;> simp [ImprovedCardDetector.isolate_rank_and_suit, h]

/-- Witness for `isolate_blank_corner`: blank corner sub-regions of the
sizes produced by `extract_and_process_corner`. -/
theorem isolate_blank_corner_witness :
    findContoursBBox (zerosImg 165 128) = [] ∧
    (ImprovedCardDetector.isolate_rank_and_suit (zerosImg 165 128)
      (zerosImg 150 128)).1 =
      zerosImg ImprovedCardDetector.RANK_HEIGHT ImprovedCardDetector.RANK_WIDTH := by
  have h : findContoursBBox (zerosImg 165 128) = [] := by
    simp [findContoursBBox, nonzeroCells, zerosImg]
  exact ⟨h, (isolate_blank_corner (zerosImg 165 128) (zerosImg 150 128)).1 h⟩

/-- C10.  On every pair of corner sub-region inputs — contour found or not —
the isolated rank glyph measures RANK_HEIGHT × RANK_WIDTH (125×70) and the
isolated suit glyph measures SUIT_HEIGHT × SUIT_WIDTH (100×70), so the
matcher's operands always have the fixed standard dimensions. -/
theorem isolate_sizes (rank_img suit_img : Img) :
    (ImprovedCardDetector.isolate_rank_and_suit rank_img suit_img).1.h =
      ImprovedCardDetector.RANK_HEIGHT ∧
    (ImprovedCardDetector.isolate_rank_and_suit rank_img suit_img).1.w =
      ImprovedCardDetector.RANK_WIDTH ∧
    (ImprovedCardDetector.isolate_rank_and_suit rank_img suit_img).2.h =
      ImprovedCardDetector.SUIT_HEIGHT ∧
    (ImprovedCardDetector.isolate_rank_and_suit rank_img suit_img).2.w =
      ImprovedCardDetector.SUIT_WIDTH := by
  unfold ImprovedCardDetector.isolate_rank_and_suit
  cases findContoursBBox rank_img <;> cases findContoursBBox suit_img <;>
    simp [resizeTo, zerosImg]

/- ### Constant images through the pipeline -/

theorem crop_const (h w a y0 y1 x0 x1 : ℕ) :
    cropImg (constImg h w a) y0 y1 x0 x1 =
      constImg (min y1 h - y0) (min x1 w - x0) a := by
  refine Img.ext_pix rfl rfl ?_
  intro i j
  rfl

theorem resize_const (h w a W H : ℕ) :
    resizeTo (constImg h w a) W H = constImg H W a := by
  refine Img.ext_pix rfl rfl ?_
  intro i j
  rfl

theorem thresh_const (h w a : ℕ) (t : ℤ) :
    threshBinInv (constImg h w a) t =
      constImg h w (if (a : ℤ) > t then 0 else 255) := by
  refine Img.ext_pix rfl rfl ?_
  intro i j
  rfl

theorem blur5_const (h w a : ℕ) : blur5 (constImg h w a) = constImg h w a := by
  refine Img.ext_pix rfl rfl ?_
  intro i j
  show (∑ x : Fin 5, ∑ y : Fin 5, gw5 x * gw5 y * a) / 256 = a
  simp only [Fin.sum_univ_five,
    show gw5 0 = 1 from rfl, show gw5 1 = 4 from rfl, show gw5 2 = 6 from rfl,
    show gw5 3 = 4 from rfl, show gw5 4 = 1 from rfl]
  ring_nf
  omega

theorem warp_const (h w a : ℕ) (rect : Fin 4 → ℤ × ℤ) :
    warpQuad (constImg h w a) rect =
      constImg ImprovedCardDetector.CARD_HEIGHT ImprovedCardDetector.CARD_WIDTH a := by
  refine Img.ext_pix rfl rfl ?_
  intro i j
  rfl

theorem diffScore_const (h w a b : ℕ) (h2 w2 : ℕ) :
    diffScore (constImg h w a) (constImg h2 w2 b) =
      h * (w * (max a b - min a b)) / 255 := by
  simp [diffScore, constImg, Finset.sum_const, Finset.card_range, smul_eq_mul]

theorem nonzeroCells_const (h w a : ℕ) (ha : a ≠ 0) :
    nonzeroCells (constImg h w a) = Finset.range h ×ˢ Finset.range w := by
  unfold nonzeroCells constImg
  exact Finset.filter_true_of_mem fun x _ => ha

theorem image_snd_range_product (m n : ℕ) (hm : 0 < m) :
    (Finset.range m ×ˢ Finset.range n).image Prod.snd = Finset.range n := by
  ext x
  simp only [Finset.mem_image, Finset.mem_product, Finset.mem_range]
  constructor
  · rintro ⟨⟨a, b⟩, ⟨_, hb⟩, rfl⟩
    exact hb
  · intro hx
    exact ⟨(0, x), ⟨hm, hx⟩, rfl⟩

theorem image_fst_range_product (m n : ℕ) (hn : 0 < n) :
    (Finset.range m ×ˢ Finset.range n).image Prod.fst = Finset.range m := by
  ext x
  simp only [Finset.mem_image, Finset.mem_product, Finset.mem_range]
  constructor
  · rintro ⟨⟨a, b⟩, ⟨ha, _⟩, rfl⟩
    exact ha
  · intro hx
    exact ⟨(x, 0), ⟨hx, hn⟩, rfl⟩

theorem range_min_eq (n : ℕ) (H : (Finset.range n).Nonempty) :
    (Finset.range n).min' H = 0 := by
  have hn : 0 < n := by
    have := Finset.nonempty_range_iff.mp H
    omega
  exact le_antisymm (Finset.min'_le _ 0 (Finset.mem_range.mpr hn)) (Nat.zero_le _)

theorem range_max_eq (n : ℕ) (H : (Finset.range n).Nonempty) :
    (Finset.range n).max' H = n - 1 := by
  have hn : 0 < n := by
    have := Finset.nonempty_range_iff.mp H
    omega
  refine le_antisymm (Finset.max'_le _ _ _ fun x hx => ?_)
    (Finset.le_max' _ _ (Finset.mem_range.mpr (by omega)))
  have := Finset.mem_range.mp hx
  omega

theorem bboxOfNonzero_const (h w a : ℕ) (ha : a ≠ 0) (hh : 0 < h) (hw : 0 < w) :
    bboxOfNonzero (constImg h w a) = (0, 0, w, h) := by
  have hne : (nonzeroCells (constImg h w a)).Nonempty := by
    rw [nonzeroCells_const h w a ha]
    exact ⟨(0, 0), by simp [hh, hw]⟩
  unfold bboxOfNonzero
  rw [dif_pos hne]
  simp only [nonzeroCells_const h w a ha,
    image_snd_range_product h w hh, image_fst_range_product h w hw,
    range_min_eq, range_max_eq]
  have e1 : w - 1 - 0 + 1 = w := by omega
  have e2 : h - 1 - 0 + 1 = h := by omega
  rw [e1, e2]

theorem findContoursBBox_const (h w a : ℕ) (ha : a ≠ 0) (hh : 0 < h) (hw : 0 < w) :
    findContoursBBox (constImg h w a) = [(0, 0, w, h)] := by
  have hne : (nonzeroCells (constImg h w a)).Nonempty := by
    rw [nonzeroCells_const h w a ha]
    exact ⟨(0, 0), by simp [hh, hw]⟩
  unfold findContoursBBox
  rw [if_pos hne, bboxOfNonzero_const h w a ha hh hw]

theorem constImg_h (h w a : ℕ) : (constImg h w a).h = h := rfl

theorem constImg_w (h w a : ℕ) : (constImg h w a).w = w := rfl

theorem constImg_px (h w a i j : ℕ) : (constImg h w a).px i j = a := rfl

/-- Corner extraction on the all-dark flattened card: the sampled white level
is 0, so the adaptive threshold clamps to 1 and the inverse threshold turns
the whole corner white (255). -/
theorem extract_const_zero :
    ImprovedCardDetector.extract_and_process_corner (constImg 300 200 0) =
      (constImg 165 128 255, constImg 150 128 255) := by
  unfold ImprovedCardDetector.extract_and_process_corner
  simp only [ImprovedCardDetector.CORNER_HEIGHT, ImprovedCardDetector.CORNER_WIDTH,
    ImprovedCardDetector.CARD_THRESH, crop_const, constImg_h, constImg_w,
    constImg_px, resize_const, blur5_const, thresh_const]
  norm_num [constImg]

/-- Glyph isolation on the all-white corner sub-regions: the bounding box of
the nonzero pixels is the full region, and resizing yields all-white glyphs
of the standard template sizes. -/
theorem isolate_const_white :
    ImprovedCardDetector.isolate_rank_and_suit (constImg 165 128 255)
      (constImg 150 128 255) = (constImg 125 70 255, constImg 100 70 255) := by
  unfold ImprovedCardDetector.isolate_rank_and_suit
  rw [findContoursBBox_const 165 128 255 (by norm_num) (by norm_num) (by norm_num),
    findContoursBBox_const 150 128 255 (by norm_num) (by norm_num) (by norm_num)]
  simp only [ImprovedCardDetector.RANK_WIDTH, ImprovedCardDetector.RANK_HEIGHT,
    ImprovedCardDetector.SUIT_WIDTH, ImprovedCardDetector.SUIT_HEIGHT,
    crop_const, resize_const]

/-- The white rank glyph differs from the all-dark rank template by 8750. -/
theorem diffScore_demo_rank :
    diffScore (constImg 125 70 255) (constImg 125 70 0) = 8750 := by
  rw [diffScore_const]
  norm_num

/-- The white suit glyph differs from the all-dark suit template by 7000. -/
theorem diffScore_demo_suit :
    diffScore (constImg 100 70 255) (constImg 100 70 0) = 7000 := by
  rw [diffScore_const]
  norm_num

/-- Rank matching of the white glyph against the demo store: best difference
8750 ≥ 2000, so "Unknown". -/
theorem match_rank_demo :
    demoDet.match_rank (constImg 125 70 255) = ("Unknown", some 8750) := by
  show matchTemplates [("Ace", constImg 125 70 0)] (constImg 125 70 255)
    ImprovedCardDetector.RANK_DIFF_MAX = ("Unknown", some 8750)
  unfold matchTemplates
  simp [matchStep, ltInf, ltFin, diffScore_demo_rank, ImprovedCardDetector.RANK_DIFF_MAX]

/-- Suit matching of the white glyph against the demo store: best difference
7000 ≥ 700, so "Unknown". -/
theorem match_suit_demo :
    demoDet.match_suit (constImg 100 70 255) = ("Unknown", some 7000) := by
  show matchTemplates [("Hearts", constImg 100 70 0)] (constImg 100 70 255)
    ImprovedCardDetector.SUIT_DIFF_MAX = ("Unknown", some 7000)
  unfold matchTemplates
  simp [matchStep, ltInf, ltFin, diffScore_demo_suit, ImprovedCardDetector.SUIT_DIFF_MAX]

/-- The DetectedCard produced for the portrait candidate on the all-dark
frame with the demo store: both glyphs are Unknown, and the confidence
expression is negative for both (−27/8 and −9). -/
def demoCard : DetectedCard :=
  { rank := "Unknown", suit := "Unknown",
    rank_confidence := some (-27/8), suit_confidence := some (-9),
    contour := demoContour, bbox := (0, 0, 60, 100), center := (30, 50),
    flattened := constImg 300 200 0,
    rank_img := constImg 125 70 255, suit_img := constImg 100 70 255 }

/-- Flattening the portrait candidate from the all-dark frame yields the
all-dark canonical card. -/
theorem flatten_good :
    ImprovedCardDetector.flatten_card grayFrame goodCardInfo.approx =
      .ok (constImg 300 200 0) := by
  rfl

/-- Full per-candidate processing of the portrait candidate. -/
theorem processCandidate_good :
    processCandidate demoDet grayFrame goodCardInfo = .ok demoCard := by
  unfold processCandidate
  rw [flatten_good]
  simp only [extract_const_zero, isolate_const_white, match_rank_demo, match_suit_demo]
  unfold demoCard
  simp only [Except.ok.injEq, DetectedCard.mk.injEq]
  norm_num [confExpr, ImprovedCardDetector.RANK_DIFF_MAX,
    ImprovedCardDetector.SUIT_DIFF_MAX, goodCardInfo, mkCardInfo, demoContour]

/-- `find_cards` admits exactly the portrait candidate from the demo frame. -/
theorem find_cards_demo :
    ImprovedCardDetector.find_cards [demoContour] = [goodCardInfo] := by
  have hpass : cardPass demoContour = true := by
    rw [cardPass_iff]
    refine ⟨?_, ?_, ?_, ?_, ?_⟩
    · norm_num [demoContour, ImprovedCardDetector.CARD_MIN_AREA]
    · norm_num [demoContour, ImprovedCardDetector.CARD_MAX_AREA]
    · norm_num [demoContour]
    · norm_num [demoContour, bboxAspect]
    · norm_num [demoContour, bboxAspect]
  unfold ImprovedCardDetector.find_cards
  simp [List.insertionSort, List.orderedInsert, hpass, goodCardInfo]

/-- The full demo run: the all-dark frame with one admissible candidate and
the demo store produces exactly `demoCard`. -/
theorem detect_demo :
    ImprovedCardDetector.detect_and_identify_cards demoDet grayFrame [demoContour] =
      [demoCard] := by
  unfold ImprovedCardDetector.detect_and_identify_cards
  rw [find_cards_demo, processCards_eq_filterMap]
  simp [processCandidate_good, Except.toOption]

/- ### C2: confidence values of emitted cards -/

/-- C2, counterexample.  A pipeline run (demo store, all-dark frame, one
admissible candidate) emits a DetectedCard whose rank_confidence is
−27/8 — negative, hence outside [0,1] and different from
max(0, 1 − best_diff/threshold) = 0: the source computes
`1.0 - (rank_diff / RANK_DIFF_MAX)` with no clamping. -/
theorem detect_c2_counterexample :
    (ImprovedCardDetector.detect_and_identify_cards demoDet grayFrame
      [demoContour]).map (fun c => c.rank_confidence) = [some (-27/8 : ℚ)] ∧
    ¬ (0 : ℚ) ≤ -27/8 := by
  rw [detect_demo]
  refine ⟨by simp [demoCard], by norm_num⟩

/-- C2, amended.  Every DetectedCard emitted by the detection pipeline
carries rank_confidence = 1 − best_rank_diff/RANK_DIFF_MAX and
suit_confidence = 1 − best_suit_diff/SUIT_DIFF_MAX with **no clamping**
(an infinite best difference from an empty store yields −∞, modelled as
`none`); a finite confidence never exceeds 1 and is ≥ 0 exactly when the
best difference is at most the kind's threshold — in particular a glyph
whose best difference exceeds the threshold is reported with a *negative*
confidence, not 0. -/
theorem detect_confidence_spec (d : ImprovedCardDetector) (gray : Img)
    (contours : List Contour) (c : DetectedCard)
    (hc : c ∈ d.detect_and_identify_cards gray contours) :
    c.rank_confidence =
      confExpr (d.match_rank c.rank_img).2 ImprovedCardDetector.RANK_DIFF_MAX ∧
    c.suit_confidence =
      confExpr (d.match_suit c.suit_img).2 ImprovedCardDetector.SUIT_DIFF_MAX ∧
    (∀ n, (d.match_rank c.rank_img).2 = some n →
      c.rank_confidence = some (1 - (n : ℚ) / ImprovedCardDetector.RANK_DIFF_MAX) ∧
      ((0 : ℚ) ≤ 1 - (n : ℚ) / ImprovedCardDetector.RANK_DIFF_MAX ↔
        n ≤ ImprovedCardDetector.RANK_DIFF_MAX) ∧
      1 - (n : ℚ) / ImprovedCardDetector.RANK_DIFF_MAX ≤ 1) ∧
    (∀ n, (d.match_suit c.suit_img).2 = some n →
      c.suit_confidence = some (1 - (n : ℚ) / ImprovedCardDetector.SUIT_DIFF_MAX) ∧
      ((0 : ℚ) ≤ 1 - (n : ℚ) / ImprovedCardDetector.SUIT_DIFF_MAX ↔
        n ≤ ImprovedCardDetector.SUIT_DIFF_MAX) ∧
      1 - (n : ℚ) / ImprovedCardDetector.SUIT_DIFF_MAX ≤ 1) := by
  unfold ImprovedCardDetector.detect_and_identify_cards at hc
  rw [processCards_eq_filterMap] at hc
  obtain ⟨ci, _, hopt⟩ := List.mem_filterMap.mp hc
  have hok : processCandidate d gray ci = .ok c := by
    cases hp : processCandidate d gray ci with
    | ok c' =>
      rw [hp] at hopt
      simp [Except.toOption] at hopt
      rw [hopt]
    | error e => rw [hp] at hopt; simp [Except.toOption] at hopt
  have hrc : c.rank_confidence =
      confExpr (d.match_rank c.rank_img).2 ImprovedCardDetector.RANK_DIFF_MAX ∧
      c.suit_confidence =
      confExpr (d.match_suit c.suit_img).2 ImprovedCardDetector.SUIT_DIFF_MAX := by
    unfold processCandidate at hok
    cases hf : ImprovedCardDetector.flatten_card gray ci.approx with
    | error e => rw [hf] at hok; cases hok
    | ok flat =>
      rw [hf] at hok
      simp only [Except.ok.injEq] at hok
      rw [hok.symm]
      exact ⟨rfl, rfl⟩
  have hq : ∀ (n m : ℕ), 0 < m →
      (((0 : ℚ) ≤ 1 - (n : ℚ) / (m : ℚ)) ↔ n ≤ m) ∧ 1 - (n : ℚ) / (m : ℚ) ≤ 1 := by
    intro n m hm
    have hm' : (0 : ℚ) < (m : ℚ) := by exact_mod_cast hm
    constructor
    · rw [sub_nonneg, div_le_one hm']
      exact_mod_cast Iff.rfl
    · have : (0 : ℚ) ≤ (n : ℚ) / (m : ℚ) := div_nonneg (Nat.cast_nonneg n) (le_of_lt hm')
      linarith
  refine ⟨hrc.1, hrc.2, ?_, ?_⟩
  · intro n hn
    have h2000 := hq n ImprovedCardDetector.RANK_DIFF_MAX (by norm_num [ImprovedCardDetector.RANK_DIFF_MAX])
    exact ⟨by rw [hrc.1, hn]; rfl, h2000.1, h2000.2⟩
  · intro n hn
    have h700 := hq n ImprovedCardDetector.SUIT_DIFF_MAX (by norm_num [ImprovedCardDetector.SUIT_DIFF_MAX])
    exact ⟨by rw [hrc.2, hn]; rfl, h700.1, h700.2⟩

/-- Witness for `detect_confidence_spec`: the demo card emitted by the
concrete run. -/
theorem detect_confidence_spec_witness :
    demoCard ∈ ImprovedCardDetector.detect_and_identify_cards demoDet grayFrame
      [demoContour] ∧
    demoCard.rank_confidence =
      confExpr (demoDet.match_rank demoCard.rank_img).2
        ImprovedCardDetector.RANK_DIFF_MAX := by
  have hmem : demoCard ∈ ImprovedCardDetector.detect_and_identify_cards demoDet
      grayFrame [demoContour] := by
    rw [detect_demo]
    exact List.mem_singleton.mpr rfl
  exact ⟨hmem,
    (detect_confidence_spec demoDet grayFrame [demoContour] demoCard hmem).1⟩

/- ### C4: empty template stores -/

/-- A detector whose template directory was missing: both stores empty. -/
def emptyDet : ImprovedCardDetector := ⟨[], []⟩

/-- The DetectedCard produced for the portrait candidate when no templates
are loaded: both glyphs "Unknown" with confidence −∞ (`none`). -/
def emptyStoreCard : DetectedCard :=
  { rank := "Unknown", suit := "Unknown",
    rank_confidence := none, suit_confidence := none,
    contour := demoContour, bbox := (0, 0, 60, 100), center := (30, 50),
    flattened := constImg 300 200 0,
    rank_img := constImg 125 70 255, suit_img := constImg 100 70 255 }

/-- Per-candidate processing with empty stores: matching is total and
returns ("Unknown", ∞); the confidence expression becomes −∞. -/
theorem processCandidate_emptyDet :
    processCandidate emptyDet grayFrame goodCardInfo = .ok emptyStoreCard := by
  unfold processCandidate
  rw [flatten_good]
  simp only [extract_const_zero, isolate_const_white]
  unfold emptyStoreCard
  simp only [Except.ok.injEq, DetectedCard.mk.injEq]
  norm_num [ImprovedCardDetector.match_rank, ImprovedCardDetector.match_suit,
    matchTemplates, emptyDet, confExpr, goodCardInfo, mkCardInfo, demoContour]

/-- The full run with empty stores: detection does not crash and emits an
Unknown/Unknown card. -/
theorem detect_emptyDet :
    ImprovedCardDetector.detect_and_identify_cards emptyDet grayFrame
      [demoContour] = [emptyStoreCard] := by
  unfold ImprovedCardDetector.detect_and_identify_cards
  rw [find_cards_demo, processCards_eq_filterMap]
  simp [processCandidate_emptyDet, Except.toOption]

/-- C4, counterexample.  With zero templates loaded, the demo run emits
rank "Unknown" as the claim says, but the reported rank_confidence is −∞
(`1.0 - inf/2000`, modelled as `none`), not 0. -/
theorem detect_c4_counterexample :
    emptyDet.rank_templates = [] ∧
    (ImprovedCardDetector.detect_and_identify_cards emptyDet grayFrame
      [demoContour]).map (fun c => (c.rank, c.rank_confidence)) =
      [("Unknown", (none : Option ℚ))] ∧
    (none : Option ℚ) ≠ some 0 := by
  rw [detect_emptyDet]
  exact ⟨rfl, by simp [emptyStoreCard], by simp⟩

/-- C4, amended.  With zero templates of a kind loaded, every match of that
kind returns ("Unknown", ∞) without raising, and the detection loop's
confidence expression for it evaluates to −∞ (`none`) — not 0. -/
theorem match_empty_store (d : ImprovedCardDetector) (g s : Img) :
    (d.rank_templates = [] →
      d.match_rank g = ("Unknown", none) ∧
      confExpr (d.match_rank g).2 ImprovedCardDetector.RANK_DIFF_MAX = none) ∧
    (d.suit_templates = [] →
      d.match_suit s = ("Unknown", none) ∧
      confExpr (d.match_suit s).2 ImprovedCardDetector.SUIT_DIFF_MAX = none) := by
  constructor
  · intro h
    have he : d.match_rank g = ("Unknown", none) := by
      unfold ImprovedCardDetector.match_rank matchTemplates
      rw [h]
      rfl
    exact ⟨he, by rw [he]; rfl⟩
  · intro h
    have he : d.match_suit s = ("Unknown", none) := by
      unfold ImprovedCardDetector.match_suit matchTemplates
      rw [h]
      rfl
    exact ⟨he, by rw [he]; rfl⟩

/-- Witness for `match_empty_store` on the concrete empty detector. -/
theorem match_empty_store_witness :
    emptyDet.rank_templates = [] ∧
    emptyDet.match_rank flatGlyph = ("Unknown", none) ∧
    confExpr (emptyDet.match_rank flatGlyph).2
      ImprovedCardDetector.RANK_DIFF_MAX = none := by
  have h := (match_empty_store emptyDet flatGlyph flatGlyph).1 rfl
  exact ⟨rfl, h.1, h.2⟩
